import Mathlib

/-!
Verification of the task-tracking server's persistence and update contract.

The embedding models `src/server/src/database.ts` (the `Database` class) and
the route handlers of `src/server/src/index.ts`:

* the sqlite `tasks` table is a `List Task` in insertion (rowid) order;
* ISO-8601 timestamps, which compare lexicographically exactly as instants,
  are modelled as `Nat`;
* loosely-typed JSON request bodies are records of `Option` fields
  (`none` = the field is absent / `undefined`);
* the JavaScript `x || d` default (which replaces every falsy value, in
  particular the empty string) is `jsOrString`;
* `SELECT * FROM tasks ORDER BY created_at DESC` is a merge sort by
  `createdAt` descending; `db.get ... WHERE id = ?` is `List.find?`;
  `this.changes` of an UPDATE/DELETE is the number of rows matched.
-/

namespace TaskApp

/-- A row of the `tasks` table (interface `Task` of `types.ts`);
`priority` is a plain string because the database layer never checks the
`'low' | 'medium' | 'high'` union. -/
structure Task where
  id : String
  title : String
  description : String
  completed : Bool
  priority : String
  category : String
  createdAt : Nat
  updatedAt : Nat
deriving Repr, DecidableEq

/-- Interface `CreateTaskRequest` of `types.ts`: `title` is required,
the other fields optional. -/
structure CreateTaskRequest where
  title : String
  description : Option String := none
  priority : Option String := none
  category : Option String := none
deriving Repr, DecidableEq

/-- Interface `UpdateTaskRequest` of `types.ts`: every field optional. -/
structure UpdateTaskRequest where
  title : Option String := none
  description : Option String := none
  completed : Option Bool := none
  priority : Option String := none
  category : Option String := none
deriving Repr, DecidableEq

/-- An unvalidated JSON body reaching the POST handler (`req.body`): even
`title` may be absent. -/
structure RawBody where
  title : Option String := none
  description : Option String := none
  priority : Option String := none
  category : Option String := none
deriving Repr, DecidableEq

/-- JavaScript `String.prototype.trim`: drops leading and trailing
whitespace. -/
def jsTrim (s : String) : String :=
  String.mk (((s.data.dropWhile Char.isWhitespace).reverse.dropWhile
    Char.isWhitespace).reverse)

/-- JavaScript `x || d` for an optional string `x`: the default replaces
both an absent field and the (falsy) empty string. -/
def jsOrString (x : Option String) (d : String) : String :=
  match x with
  | none => d
  | some s => if s = "" then d else s

/-- Errors surfaced by the storage layer (`reject(err)` paths). -/
inductive StoreErr where
  | constraintViolation
deriving Repr, DecidableEq

/-- `Database.getAllTasks`: `SELECT * FROM tasks ORDER BY created_at DESC`. -/
def Database.getAllTasks (st : List Task) : List Task :=
  st.mergeSort (fun a b => b.createdAt ≤ a.createdAt)

/-- The task object built by `Database.createTask` (database.ts lines 62-72):
defaults via JavaScript `||`, `title` copied verbatim, both timestamps `now`. -/
def Database.buildTask (taskData : CreateTaskRequest) (id : String) (now : Nat) : Task :=
  { id := id
    title := taskData.title
    description := jsOrString taskData.description ""
    completed := false
    priority := jsOrString taskData.priority "medium"
    category := jsOrString taskData.category "general"
    createdAt := now
    updatedAt := now }

/-- `Database.createTask`: INSERT of the built row; the PRIMARY KEY
constraint rejects a colliding `id` and leaves the table unchanged. -/
def Database.createTask (taskData : CreateTaskRequest) (id : String) (now : Nat)
    (st : List Task) : Except StoreErr Task × List Task :=
  if st.any (fun t => t.id = id) then
    (Except.error StoreErr.constraintViolation, st)
  else
    let task := Database.buildTask taskData id now
    (Except.ok task, st ++ [task])

/-- The row produced by the SET clause of `Database.updateTask`: every field
that is not `undefined` in the request is staged, plus `updated_at = now`. -/
def Database.applyUpdates (updates : UpdateTaskRequest) (now : Nat) (t : Task) : Task :=
  { t with
    title := updates.title.getD t.title
    description := updates.description.getD t.description
    completed := updates.completed.getD t.completed
    priority := updates.priority.getD t.priority
    category := updates.category.getD t.category
    updatedAt := now }

/-- `Database.getTaskById`: `db.get 'SELECT * FROM tasks WHERE id = ?'`
returns the first matching row or null. -/
def Database.getTaskById (id : String) (st : List Task) : Option Task :=
  st.find? (fun t => t.id = id)

/-- `Database.updateTask`: runs the UPDATE (affecting every row matched by
`WHERE id = ?`), resolves null when `this.changes === 0`, and otherwise
re-reads the row via `getTaskById`. -/
def Database.updateTask (id : String) (updates : UpdateTaskRequest) (now : Nat)
    (st : List Task) : Option Task × List Task :=
  let changes := st.countP (fun t => t.id = id)
  let st' := st.map (fun t => if t.id = id then Database.applyUpdates updates now t else t)
  if changes = 0 then (none, st')
  else (Database.getTaskById id st', st')

/-- `Database.deleteTask`: `DELETE FROM tasks WHERE id = ?`, resolving
`this.changes > 0`. -/
def Database.deleteTask (id : String) (st : List Task) : Bool × List Task :=
  (decide (0 < st.countP (fun t => t.id = id)), st.filter (fun t => ¬ t.id = id))

/-- The POST handler's guard (index.ts line 43):
`!taskData.title || taskData.title.trim() === ''`. -/
def titleInvalid (body : RawBody) : Bool :=
  match body.title with
  | none => true
  | some s => s == "" || jsTrim s == ""

/-- Outcomes of the POST `/api/tasks` handler: 400 (title missing/blank)
or 500 (store failure). -/
inductive ApiError where
  | validationError
  | storeError
deriving Repr, DecidableEq

/-- The POST `/api/tasks` handler (`createTask` in index.ts): rejects an
invalid title before touching the database, otherwise forwards the body to
`Database.createTask`. -/
def createTaskHandler (body : RawBody) (id : String) (now : Nat) (st : List Task) :
    Except ApiError Task × List Task :=
  if titleInvalid body then
    (Except.error ApiError.validationError, st)
  else
    match Database.createTask
        ⟨body.title.getD "", body.description, body.priority, body.category⟩ id now st with
    | (Except.ok task, st') => (Except.ok task, st')
    | (Except.error _, st') => (Except.error ApiError.storeError, st')

/-- The mutating operations a client can trigger through the REST surface;
`id` of a create is the uuid the service generates. -/
inductive Op where
  | create (body : RawBody) (id : String)
  | update (id : String) (updates : UpdateTaskRequest)
  | delete (id : String)
deriving Repr, DecidableEq

/-- The table after one operation executed at instant `now`. A failed
create (validation or constraint error) leaves the table unchanged. -/
def applyOp (op : Op) (now : Nat) (st : List Task) : List Task :=
  match op with
  | Op.create body id =>
      match createTaskHandler body id now st with
      | (Except.ok _, st') => st'
      | (Except.error _, _) => st
  | Op.update id updates => (Database.updateTask id updates now st).2
  | Op.delete id => (Database.deleteTask id st).2

/-- Table states reachable from the empty table through the REST surface;
the clock only moves forward (`toISOString` of a later instant is larger). -/
inductive Reachable : List Task → Nat → Prop
  | init : Reachable [] 0
  | step {st clock} (op : Op) (now : Nat) (hle : clock ≤ now) :
      Reachable st clock → Reachable (applyOp op now st) now

/-- A concrete create body used to exercise the theorems. -/
def exBody : RawBody := ⟨some "a", none, none, none⟩

/-- The table after creating `exBody` at instant 0 with uuid `"i1"`. -/
def exState1 : List Task := [⟨"i1", "a", "", false, "medium", "general", 0, 0⟩]

/-- The table after additionally updating `"i1"` with `{title: ""}` at
instant 1: the title is now empty. -/
def exState2 : List Task := [⟨"i1", "", "", false, "medium", "general", 0, 1⟩]

theorem reachable_exState1 : Reachable exState1 0 :=
  Reachable.step (Op.create exBody "i1") 0 (le_refl 0) Reachable.init

theorem reachable_exState2 : Reachable exState2 1 :=
  Reachable.step (Op.update "i1" { title := some "" }) 1 (Nat.zero_le 1) reachable_exState1

theorem applyUpdates_id (updates : UpdateTaskRequest) (now : Nat) (t : Task) :
    (Database.applyUpdates updates now t).id = t.id := rfl

theorem applyUpdates_createdAt (updates : UpdateTaskRequest) (now : Nat) (t : Task) :
    (Database.applyUpdates updates now t).createdAt = t.createdAt := rfl

theorem updateTask_snd (id : String) (updates : UpdateTaskRequest) (now : Nat)
    (st : List Task) :
    (Database.updateTask id updates now st).2 =
      st.map (fun t => if t.id = id then Database.applyUpdates updates now t else t) := by
  by_cases hc : List.countP (fun t => decide (t.id = id)) st = 0
  · simp [Database.updateTask, hc]
  · simp [Database.updateTask, hc]

theorem map_update_of_absent (st : List Task) (id : String) (f : Task → Task)
    (habs : ∀ t ∈ st, t.id ≠ id) :
    st.map (fun t => if t.id = id then f t else t) = st := by
  induction st with
  | nil => rfl
  | cons a l ih =>
      have ha : ¬ a.id = id := habs a (List.mem_cons_self a l)
      simp only [List.map_cons, if_neg ha]
      rw [ih (fun t ht => habs t (List.mem_cons_of_mem a ht))]

/-- C10: at creation, defaults are applied to falsy supplied values: an
empty-string `category` becomes `"general"`, an empty-string `priority`
becomes `"medium"`, an empty-string `description` stays `""`, and the
supplied `title` is stored verbatim, without trimming. -/
theorem C10_falsy_defaults (s : String) (d p c : Option String) (id : String) (now : Nat) :
    (Database.buildTask ⟨s, d, p, some ""⟩ id now).category = "general" ∧
    (Database.buildTask ⟨s, d, some "", c⟩ id now).priority = "medium" ∧
    (Database.buildTask ⟨s, some "", p, c⟩ id now).description = "" ∧
    (Database.buildTask ⟨s, d, p, c⟩ id now).title = s := by
  refine ⟨rfl, rfl, rfl, rfl⟩

/-- C3: a create that supplies only a non-empty title and succeeds yields a
task with description `""`, `completed := false`, priority `"medium"`,
category `"general"`, and `createdAt = updatedAt`. -/
theorem C3_create_defaults (s : String) (id : String) (now : Nat) (st : List Task)
    (task : Task) (st' : List Task)
    (h : createTaskHandler ⟨some s, none, none, none⟩ id now st = (Except.ok task, st')) :
    task.description = "" ∧ task.completed = false ∧ task.priority = "medium" ∧
    task.category = "general" ∧ task.createdAt = task.updatedAt := by
  unfold createTaskHandler at h
  by_cases hv : titleInvalid ⟨some s, none, none, none⟩
  · simp [hv] at h
  · simp only [hv, Bool.false_eq_true, if_false] at h
    unfold Database.createTask at h
    by_cases hc : st.any (fun t => t.id = id)
    · simp [hc] at h
    · simp only [hc, Bool.false_eq_true, if_false] at h
      have htask : task = Database.buildTask ⟨(some s).getD "", none, none, none⟩ id now := by
        have := congrArg Prod.fst h
        simpa using this.symm
      subst htask
      exact ⟨rfl, rfl, rfl, rfl, rfl⟩

theorem C3_create_defaults_witness :
    Task.description ⟨"i1", "Buy milk", "", false, "medium", "general", 0, 0⟩ = "" ∧
    Task.completed ⟨"i1", "Buy milk", "", false, "medium", "general", 0, 0⟩ = false ∧
    Task.priority ⟨"i1", "Buy milk", "", false, "medium", "general", 0, 0⟩ = "medium" ∧
    Task.category ⟨"i1", "Buy milk", "", false, "medium", "general", 0, 0⟩ = "general" ∧
    Task.createdAt ⟨"i1", "Buy milk", "", false, "medium", "general", 0, 0⟩ =
      Task.updatedAt ⟨"i1", "Buy milk", "", false, "medium", "general", 0, 0⟩ :=
  C3_create_defaults "Buy milk" "i1" 0 []
    ⟨"i1", "Buy milk", "", false, "medium", "general", 0, 0⟩
    [⟨"i1", "Buy milk", "", false, "medium", "general", 0, 0⟩] rfl

/-- C2: a create whose title is missing, empty, or whitespace-only after
trimming fails with the validation error and persists nothing; with a fresh
id and a valid title it appends exactly the built row and returns it. -/
theorem C2_create_validation (body : RawBody) (id : String) (now : Nat) (st : List Task)
    (hfresh : ∀ t ∈ st, t.id ≠ id) :
    (titleInvalid body = true →
      createTaskHandler body id now st = (Except.error ApiError.validationError, st)) ∧
    (titleInvalid body = false →
      createTaskHandler body id now st =
        (Except.ok (Database.buildTask
            ⟨body.title.getD "", body.description, body.priority, body.category⟩ id now),
         st ++ [Database.buildTask
            ⟨body.title.getD "", body.description, body.priority, body.category⟩ id now])) := by
  constructor
  · intro hv
    simp [createTaskHandler, hv]
  · intro hv
    have hc : st.any (fun t => t.id = id) = false := by
      rw [List.any_eq_false]
      intro t ht
      simpa using hfresh t ht
    simp [createTaskHandler, hv, Database.createTask, hc]

theorem C2_create_validation_witness :
    createTaskHandler ⟨some "   ", none, none, none⟩ "i1" 0 [] =
      (Except.error ApiError.validationError, []) ∧
    createTaskHandler ⟨some "Buy milk", none, none, none⟩ "i1" 0 [] =
      (Except.ok ⟨"i1", "Buy milk", "", false, "medium", "general", 0, 0⟩,
       [⟨"i1", "Buy milk", "", false, "medium", "general", 0, 0⟩]) := by
  constructor
  · exact (C2_create_validation ⟨some "   ", none, none, none⟩ "i1" 0 []
      (by simp)).1 (by decide)
  · exact (C2_create_validation ⟨some "Buy milk", none, none, none⟩ "i1" 0 []
      (by simp)).2 (by decide)

/-- C5: a partial update for an id not present in the store returns the
not-found signal (`none`, not an error) and leaves the store unchanged. -/
theorem C5_update_unknown (st : List Task) (id : String) (updates : UpdateTaskRequest)
    (now : Nat) (habs : ∀ t ∈ st, t.id ≠ id) :
    Database.updateTask id updates now st = (none, st) := by
  have hc : List.countP (fun t => decide (t.id = id)) st = 0 := by
    rw [List.countP_eq_zero]
    intro t ht
    simpa using habs t ht
  have hm := map_update_of_absent st id (Database.applyUpdates updates now) habs
  simp [Database.updateTask, hc, hm]

theorem C5_update_unknown_witness :
    Database.updateTask "zzz" { completed := some true } 5 exState1 = (none, exState1) :=
  C5_update_unknown exState1 "zzz" { completed := some true } 5 (by decide)

/-- C1 is refuted: the state `exState2`, reached by a create followed by a
partial update supplying `{title: ""}`, is a reachable store state holding
a row whose title is the empty string — the update path never validates the
title. -/
theorem C1_counterexample :
    ¬ (∀ st clock, Reachable st clock → ∀ t ∈ st, t.title ≠ "") := by
  intro h
  exact h exState2 1 reachable_exState2 ⟨"i1", "", "", false, "medium", "general", 0, 1⟩
    (by simp [exState2]) rfl

/-- C1 amended: no operation leaves a row with an empty title except a
partial update that explicitly supplies an empty-string title: creation
validates the title, and every other operation preserves non-emptiness of
all titles. -/
theorem C1_title_amended (st : List Task) (op : Op) (now : Nat)
    (hst : ∀ t ∈ st, t.title ≠ "")
    (hop : ∀ id updates, op = Op.update id updates →
      ∀ s, updates.title = some s → s ≠ "") :
    ∀ t ∈ applyOp op now st, t.title ≠ "" := by
  intro t ht
  cases op with
  | create body id =>
      by_cases hv : titleInvalid body
      · simp only [applyOp, createTaskHandler, hv, if_true] at ht
        exact hst t ht
      · obtain ⟨s, hs⟩ : ∃ s, body.title = some s := by
          cases hb : body.title with
          | none => exact absurd (by simp [titleInvalid, hb]) hv
          | some s => exact ⟨s, rfl⟩
        have hsne : s ≠ "" := by
          intro hse
          exact hv (by simp [titleInvalid, hs, hse])
        by_cases hc : st.any (fun x => x.id = id)
        · simp only [applyOp, createTaskHandler, hv, Bool.false_eq_true, if_false,
            Database.createTask, hc, if_true] at ht
          exact hst t ht
        · simp only [applyOp, createTaskHandler, hv, Bool.false_eq_true, if_false,
            Database.createTask, hc] at ht
          rcases List.mem_append.mp ht with hmem | hnew
          · exact hst t hmem
          · have : t = Database.buildTask
                ⟨body.title.getD "", body.description, body.priority, body.category⟩ id now :=
              List.mem_singleton.mp hnew
            subst this
            simpa [Database.buildTask, hs] using hsne
  | update id updates =>
      simp only [applyOp, updateTask_snd] at ht
      obtain ⟨x, hx, hxt⟩ := List.mem_map.mp ht
      by_cases hxid : x.id = id
      · rw [if_pos hxid] at hxt
        subst hxt
        show (updates.title.getD x.title) ≠ ""
        cases hu : updates.title with
        | none => simpa using hst x hx
        | some s => simpa using hop id updates rfl s hu
      · rw [if_neg hxid] at hxt
        subst hxt
        exact hst x hx
  | delete id =>
      simp only [applyOp, Database.deleteTask] at ht
      exact hst t (List.mem_filter.mp ht).1

theorem C1_title_amended_witness :
    Task.title ⟨"i1", "a", "", false, "medium", "general", 0, 0⟩ ≠ "" :=
  C1_title_amended exState1 (Op.delete "zzz") 2 (by decide)
    (by intro id updates h s hs; cases h)
    ⟨"i1", "a", "", false, "medium", "general", 0, 0⟩ (by decide)

theorem head_eq_of_id_eq {a t : Task} {l : List Task} (hmem : t ∈ a :: l)
    (hnodup : ((a :: l).map Task.id).Nodup) (ha : a.id = t.id) : a = t := by
  rcases List.mem_cons.mp hmem with h | h
  · exact h.symm
  · exfalso
    have hin : t.id ∈ l.map Task.id := List.mem_map_of_mem Task.id h
    have hnotin : a.id ∉ l.map Task.id := by
      rw [List.map_cons] at hnodup
      exact (List.nodup_cons.mp hnodup).1
    rw [ha] at hnotin
    exact hnotin hin

theorem nodup_tail_ids {a : Task} {l : List Task}
    (hnodup : ((a :: l).map Task.id).Nodup) : (l.map Task.id).Nodup := by
  rw [List.map_cons] at hnodup
  exact (List.nodup_cons.mp hnodup).2

theorem find_map_update (st : List Task) (t : Task) (f : Task → Task)
    (hid : ∀ x, (f x).id = x.id)
    (hmem : t ∈ st) (hnodup : (st.map Task.id).Nodup) :
    (st.map (fun x => if x.id = t.id then f x else x)).find?
      (fun x => x.id = t.id) = some (f t) := by
  induction st with
  | nil => cases hmem
  | cons a l ih =>
      by_cases ha : a.id = t.id
      · have hat : a = t := head_eq_of_id_eq hmem hnodup ha
        subst hat
        rw [List.map_cons, if_pos rfl]
        exact List.find?_cons_of_pos _ (by simp [hid])
      · rw [List.map_cons, if_neg ha]
        rw [List.find?_cons_of_neg _ (by simpa using ha)]
        have hmem' : t ∈ l := by
          rcases List.mem_cons.mp hmem with h | h
          · exact absurd (h ▸ rfl) ha
          · exact h
        exact ih hmem' (nodup_tail_ids hnodup)

theorem countP_pos_of_mem (st : List Task) (t : Task) (hmem : t ∈ st) :
    ¬ List.countP (fun x => decide (x.id = t.id)) st = 0 := by
  intro h0
  rw [List.countP_eq_zero] at h0
  exact absurd (by simp) (h0 t hmem)

/-- C6: a partial update supplying only `completed` on a present task
returns that task with `title`, `description`, `priority`, `category`
unchanged, `completed` set to the supplied value and `updatedAt` advanced
to `now`; every other row of the store is untouched. -/
theorem C6_update_completed (st : List Task) (t : Task) (v : Bool) (now : Nat)
    (hmem : t ∈ st) (hnodup : (st.map Task.id).Nodup) (hclock : t.updatedAt < now) :
    (Database.updateTask t.id { completed := some v } now st).1 =
      some { t with completed := v, updatedAt := now } ∧
    (Database.updateTask t.id { completed := some v } now st).2 =
      st.map (fun x => if x.id = t.id then
        { x with completed := v, updatedAt := now } else x) ∧
    t.updatedAt < ({ t with completed := v, updatedAt := now } : Task).updatedAt := by
  have happ : ∀ x : Task, Database.applyUpdates { completed := some v } now x =
      { x with completed := v, updatedAt := now } := fun x => rfl
  have hc := countP_pos_of_mem st t hmem
  refine ⟨?_, ?_, hclock⟩
  · show (Database.updateTask t.id { completed := some v } now st).1 = _
    simp only [Database.updateTask, hc, if_false]
    unfold Database.getTaskById
    rw [find_map_update st t (Database.applyUpdates { completed := some v } now)
      (fun x => rfl) hmem hnodup, happ]
  · rw [updateTask_snd]
    simp only [happ]

theorem C6_update_completed_witness :
    (Database.updateTask "i1" { completed := some true } 7 exState1).1 =
      some ⟨"i1", "a", "", true, "medium", "general", 0, 7⟩ ∧
    (Database.updateTask "i1" { completed := some true } 7 exState1).2 =
      [⟨"i1", "a", "", true, "medium", "general", 0, 7⟩] := by
  have h := C6_update_completed exState1 ⟨"i1", "a", "", false, "medium", "general", 0, 0⟩
    true 7 (by decide) (by decide) (by decide)
  exact ⟨h.1, by rw [h.2.1]; rfl⟩

/-- C9: a partial update in which every field is absent does not fail and
does not return not-found on a present id: it returns the task with all
five data fields unchanged and only `updatedAt` refreshed to `now`. -/
theorem C9_empty_update (st : List Task) (t : Task) (now : Nat)
    (hmem : t ∈ st) (hnodup : (st.map Task.id).Nodup) :
    (Database.updateTask t.id {} now st).1 = some { t with updatedAt := now } ∧
    (Database.updateTask t.id {} now st).2 =
      st.map (fun x => if x.id = t.id then { x with updatedAt := now } else x) := by
  have happ : ∀ x : Task, Database.applyUpdates {} now x =
      { x with updatedAt := now } := fun x => rfl
  have hc := countP_pos_of_mem st t hmem
  constructor
  · show (Database.updateTask t.id {} now st).1 = _
    simp only [Database.updateTask, hc, if_false]
    unfold Database.getTaskById
    rw [find_map_update st t (Database.applyUpdates {} now)
      (fun x => rfl) hmem hnodup, happ]
  · rw [updateTask_snd]
    simp only [happ]

theorem C9_empty_update_witness :
    (Database.updateTask "i1" {} 9 exState1).1 =
      some ⟨"i1", "a", "", false, "medium", "general", 0, 9⟩ ∧
    (Database.updateTask "i1" {} 9 exState1).2 =
      [⟨"i1", "a", "", false, "medium", "general", 0, 9⟩] := by
  have h := C9_empty_update exState1 ⟨"i1", "a", "", false, "medium", "general", 0, 0⟩
    9 (by decide) (by decide)
  exact ⟨h.1, by rw [h.2]; rfl⟩

theorem countP_eq_one_of_mem (st : List Task) (t : Task) (hmem : t ∈ st)
    (hnodup : (st.map Task.id).Nodup) :
    List.countP (fun x => decide (x.id = t.id)) st = 1 := by
  induction st with
  | nil => cases hmem
  | cons a l ih =>
      by_cases ha : a.id = t.id
      · have hat : a = t := head_eq_of_id_eq hmem hnodup ha
        rw [List.countP_cons_of_pos _ _ (by simpa using ha)]
        have hzero : List.countP (fun x => decide (x.id = t.id)) l = 0 := by
          rw [List.countP_eq_zero]
          intro x hx
          have hnotin : a.id ∉ l.map Task.id := by
            rw [List.map_cons] at hnodup
            exact (List.nodup_cons.mp hnodup).1
          simp only [decide_eq_true_eq]
          intro hxe
          exact hnotin (by rw [ha, ← hxe]; exact List.mem_map_of_mem Task.id hx)
        rw [hzero]
      · rw [List.countP_cons_of_neg _ _ (by simpa using ha)]
        have hmem' : t ∈ l := by
          rcases List.mem_cons.mp hmem with h | h
          · exact absurd (h ▸ rfl) ha
          · exact h
        exact ih hmem' (nodup_tail_ids hnodup)

theorem filter_length_of_unique (st : List Task) (t : Task) (hmem : t ∈ st)
    (hnodup : (st.map Task.id).Nodup) :
    (st.filter (fun x => ¬ x.id = t.id)).length + 1 = st.length := by
  induction st with
  | nil => cases hmem
  | cons a l ih =>
      by_cases ha : a.id = t.id
      · rw [List.filter_cons_of_neg (by simpa using ha)]
        have hself : l.filter (fun x => ¬ x.id = t.id) = l := by
          rw [List.filter_eq_self]
          intro x hx
          have hnotin : a.id ∉ l.map Task.id := by
            rw [List.map_cons] at hnodup
            exact (List.nodup_cons.mp hnodup).1
          simp only [decide_eq_true_eq]
          intro hxe
          exact hnotin (by rw [ha, ← hxe]; exact List.mem_map_of_mem Task.id hx)
        rw [hself, List.length_cons]
      · rw [List.filter_cons_of_pos (by simpa using ha)]
        have hmem' : t ∈ l := by
          rcases List.mem_cons.mp hmem with h | h
          · exact absurd (h ▸ rfl) ha
          · exact h
        rw [List.length_cons, List.length_cons,
          ← ih hmem' (nodup_tail_ids hnodup)]

/-- C8: deleting a present id reports `true`, removes exactly that row
(every other row survives), a subsequent `getTaskById` for the id is
not-found and a second delete reports `false`; deleting an absent id
reports `false` and leaves the store unchanged. -/
theorem C8_delete (st : List Task) (t : Task) (id2 : String)
    (hmem : t ∈ st) (hnodup : (st.map Task.id).Nodup)
    (habs : ∀ x ∈ st, x.id ≠ id2) :
    (Database.deleteTask t.id st).1 = true ∧
    (Database.deleteTask t.id st).2.length + 1 = st.length ∧
    (∀ x ∈ st, x.id ≠ t.id → x ∈ (Database.deleteTask t.id st).2) ∧
    (∀ x ∈ (Database.deleteTask t.id st).2, x ∈ st ∧ x.id ≠ t.id) ∧
    Database.getTaskById t.id (Database.deleteTask t.id st).2 = none ∧
    Database.deleteTask t.id (Database.deleteTask t.id st).2 =
      (false, (Database.deleteTask t.id st).2) ∧
    Database.deleteTask id2 st = (false, st) := by
  have h1 := countP_eq_one_of_mem st t hmem hnodup
  have hpred : ∀ x ∈ (Database.deleteTask t.id st).2, x.id ≠ t.id := by
    intro x hx
    simpa using (List.mem_filter.mp hx).2
  refine ⟨?_, ?_, ?_, ?_, ?_, ?_, ?_⟩
  · simp [Database.deleteTask, h1]
  · exact filter_length_of_unique st t hmem hnodup
  · intro x hx hne
    exact List.mem_filter.mpr ⟨hx, by simpa using hne⟩
  · intro x hx
    exact ⟨(List.mem_filter.mp hx).1, hpred x hx⟩
  · rw [Database.getTaskById, List.find?_eq_none]
    intro x hx
    simpa using hpred x hx
  · have hzero : List.countP (fun x => decide (x.id = t.id))
        (Database.deleteTask t.id st).2 = 0 := by
      rw [List.countP_eq_zero]
      intro x hx
      simpa using hpred x hx
    have hself : (Database.deleteTask t.id st).2.filter (fun x => ¬ x.id = t.id) =
        (Database.deleteTask t.id st).2 := by
      rw [List.filter_eq_self]
      intro x hx
      simpa using hpred x hx
    simp [Database.deleteTask, hzero, hself]
  · have hzero : List.countP (fun x => decide (x.id = id2)) st = 0 := by
      rw [List.countP_eq_zero]
      intro x hx
      simpa using habs x hx
    have hself : st.filter (fun x => ¬ x.id = id2) = st := by
      rw [List.filter_eq_self]
      intro x hx
      simpa using habs x hx
    simp only [Database.deleteTask, hzero, hself]
    simp

theorem C8_delete_witness :
    (Database.deleteTask "i1" exState1).1 = true ∧
    Database.deleteTask "zzz" exState1 = (false, exState1) := by
  have h := C8_delete exState1 ⟨"i1", "a", "", false, "medium", "general", 0, 0⟩ "zzz"
    (by decide) (by decide) (by decide)
  exact ⟨h.1, h.2.2.2.2.2.2⟩

/-- C4: `getAllTasks` returns exactly the persisted tasks (a permutation of
the table, so N rows stay N rows) ordered by `createdAt` descending. -/
theorem C4_list_order (st : List Task) :
    (Database.getAllTasks st).Perm st ∧
    (Database.getAllTasks st).length = st.length ∧
    List.Sorted (fun a b : Task => b.createdAt ≤ a.createdAt)
      (Database.getAllTasks st) := by
  have hperm : (Database.getAllTasks st).Perm st := List.mergeSort_perm st _
  refine ⟨hperm, hperm.length_eq, ?_⟩
  have hs := @List.sorted_mergeSort Task
    (fun a b : Task => decide (b.createdAt ≤ a.createdAt))
    (fun a b c h1 h2 => by
      simp only [decide_eq_true_eq] at h1 h2 ⊢
      omega)
    (fun a b => by
      rcases Nat.le_total b.createdAt a.createdAt with h | h <;> simp [h])
    st
  exact List.Pairwise.imp (fun h => by simpa using h) hs

/-- The inductive invariant of reachable tables: every row's `createdAt`
is at most its `updatedAt`, every `updatedAt` is at most the clock, and
the ids are pairwise distinct (the PRIMARY KEY). -/
theorem reachable_invariant (st : List Task) (clock : Nat) (h : Reachable st clock) :
    (∀ t ∈ st, t.createdAt ≤ t.updatedAt ∧ t.updatedAt ≤ clock) ∧
    (st.map Task.id).Nodup := by
  induction h with
  | init => exact ⟨by simp, by simp⟩
  | step op now hle hr ih =>
      rename_i s0 c0
      obtain ⟨hbound, hnodup⟩ := ih
      cases op with
      | create body id =>
          by_cases hv : titleInvalid body
          · simp only [applyOp, createTaskHandler, hv, if_true]
            exact ⟨fun t ht => ⟨(hbound t ht).1, le_trans (hbound t ht).2 hle⟩, hnodup⟩
          · by_cases hc : (s0.any fun x => x.id = id)
            · simp only [applyOp, createTaskHandler, hv, Bool.false_eq_true, if_false,
                Database.createTask, hc, if_true]
              exact ⟨fun t ht => ⟨(hbound t ht).1, le_trans (hbound t ht).2 hle⟩, hnodup⟩
            · simp only [applyOp, createTaskHandler, hv, Bool.false_eq_true, if_false,
                Database.createTask, hc]
              constructor
              · intro t ht
                rcases List.mem_append.mp ht with hm | hnew
                · exact ⟨(hbound t hm).1, le_trans (hbound t hm).2 hle⟩
                · rw [List.mem_singleton.mp hnew]
                  exact ⟨le_refl now, le_refl now⟩
              · rw [List.map_append]
                have hfresh : id ∉ s0.map Task.id := by
                  rw [Bool.not_eq_true, List.any_eq_false] at hc
                  intro hin
                  obtain ⟨x, hx, hxid⟩ := List.mem_map.mp hin
                  have hne : ¬ x.id = id := by simpa using hc x hx
                  exact hne hxid
                rw [List.nodup_append]
                refine ⟨hnodup, List.nodup_singleton _, ?_⟩
                intro a ha hb
                have hb' : a = id := by simpa using hb
                exact hfresh (hb' ▸ ha)
      | update id updates =>
          simp only [applyOp, updateTask_snd]
          constructor
          · intro t ht
            obtain ⟨x, hx, hxt⟩ := List.mem_map.mp ht
            by_cases hxid : x.id = id
            · rw [if_pos hxid] at hxt
              rw [← hxt]
              refine ⟨?_, le_refl now⟩
              show x.createdAt ≤ now
              exact le_trans (hbound x hx).1 (le_trans (hbound x hx).2 hle)
            · rw [if_neg hxid] at hxt
              rw [← hxt]
              exact ⟨(hbound x hx).1, le_trans (hbound x hx).2 hle⟩
          · rw [List.map_map]
            have heq : s0.map (Task.id ∘ fun t =>
                if t.id = id then Database.applyUpdates updates now t else t) =
                s0.map Task.id := by
              apply List.map_congr_left
              intro x _
              by_cases hxid : x.id = id
              · simp [hxid, applyUpdates_id]
              · simp [hxid]
            rw [heq]
            exact hnodup
      | delete id =>
          simp only [applyOp, Database.deleteTask]
          constructor
          · intro t ht
            have hm := (List.mem_filter.mp ht).1
            exact ⟨(hbound t hm).1, le_trans (hbound t hm).2 hle⟩
          · exact List.Nodup.sublist
              (List.Sublist.map Task.id (List.filter_sublist s0)) hnodup

/-- C7: for every reachable store state, `createdAt ≤ updatedAt` holds for
every row, and no operation changes the `createdAt` of a surviving row
(a row of the next state with the same id as a current row keeps its
`createdAt`). -/
theorem C7_timestamps :
    (∀ st clock, Reachable st clock → ∀ t ∈ st, t.createdAt ≤ t.updatedAt) ∧
    (∀ st clock, Reachable st clock → ∀ op now, ∀ t' ∈ applyOp op now st,
      ∀ t ∈ st, t'.id = t.id → t'.createdAt = t.createdAt) := by
  constructor
  · intro st clock h t ht
    exact ((reachable_invariant st clock h).1 t ht).1
  · intro st clock h op now t' ht' t ht hid
    have hnodup := (reachable_invariant st clock h).2
    have hinj := List.inj_on_of_nodup_map hnodup
    cases op with
    | create body id =>
        by_cases hv : titleInvalid body
        · simp only [applyOp, createTaskHandler, hv, if_true] at ht'
          rw [hinj ht' ht hid]
        · by_cases hc : (st.any fun x => x.id = id)
          · simp only [applyOp, createTaskHandler, hv, Bool.false_eq_true, if_false,
              Database.createTask, hc, if_true] at ht'
            rw [hinj ht' ht hid]
          · simp only [applyOp, createTaskHandler, hv, Bool.false_eq_true, if_false,
              Database.createTask, hc] at ht'
            rcases List.mem_append.mp ht' with hm | hnew
            · rw [hinj hm ht hid]
            · exfalso
              rw [Bool.not_eq_true, List.any_eq_false] at hc
              have hid' : t'.id = id := by
                rw [List.mem_singleton.mp hnew]
                rfl
              have hne : ¬ t.id = id := by simpa using hc t ht
              exact hne (by rw [← hid]; exact hid')
    | update id updates =>
        simp only [applyOp, updateTask_snd] at ht'
        obtain ⟨x, hx, hxt⟩ := List.mem_map.mp ht'
        by_cases hxid : x.id = id
        · rw [if_pos hxid] at hxt
          have hids : x.id = t.id := by rw [← hid, ← hxt]; rfl
          rw [hinj hx ht hids] at hxt
          rw [← hxt]
          rfl
        · rw [if_neg hxid] at hxt
          rw [← hxt] at hid ⊢
          rw [hinj hx ht hid]
    | delete id =>
        simp only [applyOp, Database.deleteTask] at ht'
        exact congrArg Task.createdAt (hinj (List.mem_filter.mp ht').1 ht hid)

theorem C7_timestamps_witness :
    Task.createdAt ⟨"i1", "", "", false, "medium", "general", 0, 1⟩ ≤
      Task.updatedAt ⟨"i1", "", "", false, "medium", "general", 0, 1⟩ ∧
    Task.createdAt ⟨"i1", "", "", false, "medium", "general", 0, 1⟩ =
      Task.createdAt ⟨"i1", "a", "", false, "medium", "general", 0, 0⟩ :=
  ⟨C7_timestamps.1 exState2 1 reachable_exState2
      ⟨"i1", "", "", false, "medium", "general", 0, 1⟩ (by decide),
   C7_timestamps.2 exState1 0 reachable_exState1
      (Op.update "i1" { title := some "" }) 1
      ⟨"i1", "", "", false, "medium", "general", 0, 1⟩ (by decide)
      ⟨"i1", "a", "", false, "medium", "general", 0, 0⟩ (by decide) rfl⟩

end TaskApp
